import Mathlib

/-!
Shallow embedding of `src/macos.rs` from rustls-native-certs: the macOS
trust-resolution algorithm `load_native_certs`, which merges the per-user,
locally-administered and system trust-settings domains in precedence order,
interprets empty trust settings as root trust, filters certificates whose
SHA-256 digest is on Apple's dynamic-distrust list, and keeps only
certificates whose effective verdict is `TrustRoot` or `TrustAsRoot`.

The external collaborators are modelled as data:
  * the `security_framework` trust-settings store for one domain becomes a
    `TrustSettings` record holding the result of `iter()` and the
    per-certificate verdict lookup;
  * the SHA-256 digest (`sha2` crate) becomes a function parameter
    `hash : List Nat → List Nat` from DER bytes to digest bytes.
Everything else (`hex`, the distrusted-digest table, the merge loop, the
final root-trust filter) is translated directly from the source.
-/

namespace RustlsNativeCerts

/-- Trust verdict for a certificate in one domain, the
`TrustSettingsForCertificate` enum of the `security_framework` crate. -/
inductive TrustSettingsForCertificate
  | TrustRoot
  | TrustAsRoot
  | Deny
  | Unspecified
  | Invalid
deriving DecidableEq, Repr

/-- Trust-settings domain (`security_framework`'s `Domain`): per-user,
locally administered (admin), and system. -/
inductive Domain
  | User
  | Admin
  | System
deriving DecidableEq, Repr

/-- The `Certificate` newtype over raw DER-encoded bytes (the crate's
`Certificate(Vec<u8>)`); a byte is modelled as a `Nat` below 256. -/
structure Certificate where
  der : List Nat
deriving DecidableEq, Repr

/-- Model of the external `TrustSettings` collaborator for one domain:
`iter` is the result of `TrustSettings::iter()` (the finite list of DER byte
strings the domain yields, or an error), and
`tls_trust_settings_for_certificate` is the per-certificate verdict lookup,
where `.ok none` means the certificate has no explicit trust settings. -/
structure TrustSettings where
  iter : Except String (List (List Nat))
  tls_trust_settings_for_certificate :
    List Nat → Except String (Option TrustSettingsForCertificate)

/-- Lowercase hex digit for `n < 16`, as produced by Rust's `{:02x}`. -/
def hexChar (n : Nat) : Char :=
  if n < 10 then Char.ofNat (48 + n) else Char.ofNat (87 + n)

/-- Two lowercase hex digits of one byte, as produced by `{:02x}` on a `u8`. -/
def hexByte (b : Nat) : List Char :=
  [hexChar (b / 16 % 16), hexChar (b % 16)]

/-- Function `hex` from `src/macos.rs:11`: format a byte sequence as a lowercase hex
string. -/
def hex (input : List Nat) : String :=
  String.mk ((input.map hexByte).flatten)

/-- The 53 SHA-256 digests (hex strings) of dynamically distrusted Apple
roots, exactly the arm patterns of the `match` at `src/macos.rs:61-115`. -/
def distrustedHashes : List String :=
  [ "e3268f6106ba8b665a1a962ddea1459d2a46972f1f2440329b390b895749ad45"
  , "0ed3ffab6c149c8b4e71058e8668d429abfda681c2fff508207641f0d751a3e5"
  , "f96f23f4c3e79c077a46988d5af5900676a0f039cb645dd17549b216c82440ce"
  , "fcbfe2886206f72b27593c8b070297e12d769ed10ed7930705a8098effc14d17"
  , "2a99f5bc1174b73cbb1d620884e01c34e51ccb3978da125f0e33268883bf4158"
  , "152a402bfcdf2cd548054d2275b39c7fca3ec0978078b0f0ea76e561a6c7433e"
  , "6cc05041e6445e74696c4cfbc9f80f543b7eabbb44b4ce6f787c6a9971c42f17"
  , "e28393773da845a679f2080cc7fb44a3b7a1c3792cb7eb7729fdcb6a8d99aea7"
  , "ae4457b40d9eda96677b0d3c92d57b5177abd7ac1037958356d1e094518be5f2"
  , "507941c74460a0b47086220d4e9932572ab5d1b5bbcb8980ab1cb17651a844d2"
  , "abd055c297005a89e4458ae34d4bc77e67db0fe1be575842c4efb7e8c3e05839"
  , "37d51006c512eaab626421f1ec8c92013fc5f82ae98ee533eb4619b8deb4d06c"
  , "b478b812250df878635c2aa7ec7d155eaa625ee82916e2cd294361886cd1fbd4"
  , "70b922bfda0e3f4a342e4ee22d579ae598d071cc5ec9c30f123680340388aea5"
  , "bc104f15a48be709dca542a7e1d4b9df6f054527e802eaa92d595444258afe71"
  , "6fdb3f76c8b801a75338d8a50a7c02879f6198b57e594d318d3832900fedcd79"
  , "56c77128d98c18d91b4cfdffbc25ee9103d4758ea2abad826a90f3457d460eb4"
  , "27995829fe6a7515c1bfe848f9c4761db16c225929257bf40d0894f29ea8baf2"
  , "b7c36231706e81078c367cb896198f1e3208dd926949dd8f5709a410f75b6292"
  , "00309c736dd661da6f1eb24173aa849944c168a43a15bffd192eecfdb6f8dbd2"
  , "a22dba681e97376e2d397d728aae3a9b6296b9fdba60bc2e11f647f2c675fb37"
  , "91e5cc32910686c5cac25c18cc805696c7b33868c280caf0c72844a2a8eb91e2"
  , "3c4fb0b95ab8b30032f432b86f535fe172c185d0fd39865837cf36187fa6f428"
  , "c766a9bef2d4071c863a31aa4920e813b2d198608cb7b7cfe21143b836df09ea"
  , "e17890ee09a3fbf4f48b9c414a17d637b7a50647e9bc752322727fcc1742a911"
  , "c7ba6567de93a798ae1faa791e712d378fae1f93c4397fea441bb7cbe6fd5995"
  , "21db20123660bb2ed418205da11ee7a85a65e2bc6e55b5af7e7899c8a266d92e"
  , "f09b122c7114f4a09bd4ea4f4a99d558b46e4c25cd81140d29c05613914c3841"
  , "d95fea3ca4eedce74cd76e75fc6d1ff62c441f0fa8bc77f034b19e5db258015d"
  , "363f3c849eab03b0a2a0f636d7b86d04d3ac7fcfe26a0a9121ab9795f6e176df"
  , "9d190b2e314566685be8a889e27aa8c7d7ae1d8aaddba3c1ecf9d24863cd34b9"
  , "fe863d0822fe7a2353fa484d5924e875656d3dc9fb58771f6f616f9d571bc592"
  , "cb627d18b58ad56dde331a30456bc65c601a4e9b18dedcea08e7daaa07815ff0"
  , "53dfdfa4e297fcfe07594e8c62d5b8ab06b32c7549f38a163094fd6429d5da43"
  , "b32396746453442f353e616292bb20bbaa5d23b546450fdb9c54b8386167d529"
  , "8d722f81a9c113c0791df136a2966db26c950a971db46b4199f4ea54b78bfb9f"
  , "a4310d50af18a6447190372a86afaf8b951ffb431d837f1e5688b45971ed1557"
  , "4b03f45807ad70f21bfc2cae71c9fde4604c064cf5ffb686bae5dbaad7fdd34c"
  , "61dab17b03b2c239ae41d6a0712882d1484b821d0eb895d52f0fec634db713b8"
  , "c1b48299aba5208fe9630ace55ca68a03eda5a519c8802a0d3a673be8f8e557d"
  , "cbb5af185e942a2402f9eacbc0ed5bb876eea3c1223623d00447e4f3ba554b65"
  , "92a9d9833fe1944db366e8bfae7a95b6480c2d6c6c2a1be65d4236b608fca1bb"
  , "eb04cf5eb1f39afa762f2bb120f296cba520c1b97db1589565b81cb9a17b7244"
  , "69ddd7ea90bb57c93e135dc85ea6fcd5480b603239bdc454fc758b2a26cf7f79"
  , "2399561127a57125de8cefea610ddf2fa078b5c8067f4e828290bfb860e84b3c"
  , "4b15a4ee04f0bdb6c7ef1a15b63c72006688f7ca3d8ccdc0133b90a739e1aa55"
  , "0c258a12a5674aef25f28ba7dcfaeceea348e541e6f5cc4ee63b71b361606ac3"
  , "063e4afac491dfd332f3089b8542e94617d893d7fe944e10a7937ee29d9693c0"
  , "8327bc8c9d69947b3de3c27511537267f59c21b9fa7b613fafbccd53b7024000"
  , "ef3cb417fc8ebf6f97876c9e4ece39de1ea5fe649141d1028b7d11c0b2298ced"
  , "136335439334a7698016a0d324de72284e079d7b5220bb8fbd747816eebebaca"
  , "3b222e566711e992300dc0b15ab9473dafdef8c84d0cef7d3317b4c1821d1436"
  , "92d8092ee77bc9208f0897dc05271894e63ef27933ae537fb983eef0eae3eec8"
  ]

/-- Membership of a digest hex string among the distrusted-digest match arms
of `src/macos.rs:61-115` (string equality against each listed pattern). -/
def isDistrusted (s : String) : Bool :=
  distrustedHashes.any fun t => s = t

/-- The `match` at `src/macos.rs:61-115` embedded as written: each of the 53
arms is a listed digest string whose body is `continue`, giving `some ()`.
The source supplies no arm for any other string, so that case is `none`:
control cannot reach the insertion at line 117 through any arm of this
`match` (the `match` is non-exhaustive as written).  The resolver embedding
`load_native_certs` below uses the fall-through reading that line 117 and
the surrounding comments evidently intend. -/
def matchDigestArms (s : String) : Option Unit :=
  if isDistrusted s then some () else none

/-- The merged trust table: `HashMap<Vec<u8>, TrustSettingsForCertificate>`
(`all_certs` in the source), modelled as an association list from DER bytes
to the first verdict observed, in insertion order. -/
abbrev Table := List (List Nat × TrustSettingsForCertificate)

/-- Key lookup (`HashMap` get) on the association-list model: the value stored at key
`k`, or `none` if absent. -/
def lookup (k : List Nat) : Table → Option TrustSettingsForCertificate
  | [] => none
  | (k', v) :: rest => if k' = k then some v else lookup k rest

/-- Insertion `all_certs.entry(der).or_insert(trusted)` from `src/macos.rs:117`:
insert `(k, v)` only when no entry for key `k` exists. -/
def entryOrInsert (m : Table) (k : List Nat) (v : TrustSettingsForCertificate) :
    Table :=
  match lookup k m with
  | some _ => m
  | none => m ++ [(k, v)]

/-- The inner loop of `load_native_certs` (`src/macos.rs:38-118`) over one
domain's certificate list: look up the verdict (propagating lookup errors),
default missing settings to `TrustRoot`, skip certificates whose digest is
on the distrust list, and otherwise insert into the table if absent. -/
def processCerts (hash : List Nat → List Nat) (ts : TrustSettings) :
    Table → List (List Nat) → Except String Table
  | acc, [] => .ok acc
  | acc, der :: rest =>
    match ts.tls_trust_settings_for_certificate der with
    | .error e => .error e
    | .ok v =>
      let trusted := v.getD .TrustRoot
      if isDistrusted (hex (hash der)) then
        processCerts hash ts acc rest
      else
        processCerts hash ts (entryOrInsert acc der trusted) rest

/-- The outer loop of `load_native_certs` (`src/macos.rs:32-119`) over a
list of domains: open each domain's trust settings (propagating `iter()`
errors) and fold its certificates into the table. -/
def processDomains (hash : List Nat → List Nat) (env : Domain → TrustSettings) :
    Table → List Domain → Except String Table
  | acc, [] => .ok acc
  | acc, d :: rest =>
    match (env d).iter with
    | .error e => .error e
    | .ok certs =>
      match processCerts hash (env d) acc certs with
      | .error e => .error e
      | .ok acc' => processDomains hash env acc' rest

/-- The merged trust table built by scanning the three domains in the
precedence order `[User, Admin, System]` of `src/macos.rs:32`. -/
def mergedTable (hash : List Nat → List Nat) (env : Domain → TrustSettings) :
    Except String Table :=
  processDomains hash env [] [Domain.User, Domain.Admin, Domain.System]

/-- Root-trust test of the final filter (`src/macos.rs:127`):
`if let TrustRoot | TrustAsRoot = trusted`. -/
def isRootVerdict : TrustSettingsForCertificate → Bool
  | .TrustRoot => true
  | .TrustAsRoot => true
  | _ => false

/-- Function `load_native_certs` (`src/macos.rs:18-133`), parametric in the SHA-256
digest function and the per-domain trust-settings collaborator: build the
merged table over `[User, Admin, System]`, then keep exactly the entries
whose verdict is `TrustRoot` or `TrustAsRoot`, wrapped as `Certificate`s. -/
def load_native_certs (hash : List Nat → List Nat)
    (env : Domain → TrustSettings) : Except String (List Certificate) :=
  match mergedTable hash env with
  | .error e => .error e
  | .ok all_certs =>
    .ok ((all_certs.filter fun p => isRootVerdict p.2).map fun p =>
      Certificate.mk p.1)

/-- Position of a domain in the iteration order of `src/macos.rs:32`;
a smaller index means higher precedence (User over Admin over System). -/
def domainIndex : Domain → Nat
  | .User => 0
  | .Admin => 1
  | .System => 2

/-! ### Concrete instances used to exercise the theorems -/

/-- A stand-in digest function whose output (32 zero bytes) is not on the
distrust list. -/
def sha0 : List Nat → List Nat := fun _ => List.replicate 32 0

/-- The digest bytes of the first entry of `distrustedHashes`. -/
def digestE3 : List Nat :=
  [0xe3, 0x26, 0x8f, 0x61, 0x06, 0xba, 0x8b, 0x66, 0x5a, 0x1a, 0x96, 0x2d,
   0xde, 0xa1, 0x45, 0x9d, 0x2a, 0x46, 0x97, 0x2f, 0x1f, 0x24, 0x40, 0x32,
   0x9b, 0x39, 0x0b, 0x89, 0x57, 0x49, 0xad, 0x45]

/-- A stand-in digest function that maps every certificate to a digest on
the distrust list. -/
def shaE3 : List Nat → List Nat := fun _ => digestE3

/-- A domain with no certificates and no explicit settings. -/
def tsEmpty : TrustSettings :=
  { iter := .ok []
    tls_trust_settings_for_certificate := fun _ => .ok none }

/-- Every domain yields certificate `[1]` with explicit `TrustRoot`. -/
def envW1 : Domain → TrustSettings := fun _ =>
  { iter := .ok [[1]]
    tls_trust_settings_for_certificate := fun _ => .ok (some .TrustRoot) }

/-- User yields nothing; Admin yields `[1]` as `TrustAsRoot`; System yields
`[1]` as `Deny`. -/
def envW2 : Domain → TrustSettings
  | .User => tsEmpty
  | .Admin =>
    { iter := .ok [[1]]
      tls_trust_settings_for_certificate := fun _ => .ok (some .TrustAsRoot) }
  | .System =>
    { iter := .ok [[1]]
      tls_trust_settings_for_certificate := fun _ => .ok (some .Deny) }

/-- User and Admin open fine and are empty; opening System fails. -/
def envW4 : Domain → TrustSettings
  | .System =>
    { iter := .error "unavailable"
      tls_trust_settings_for_certificate := fun _ => .ok none }
  | _ => tsEmpty

/-- Every domain reports no explicit settings for its certificate `[3]`. -/
def envNoneW : Domain → TrustSettings := fun _ =>
  { iter := .ok [[3]]
    tls_trust_settings_for_certificate := fun _ => .ok none }

/-- Like `envNoneW` but reporting explicit `TrustRoot` instead. -/
def envRootW : Domain → TrustSettings := fun _ =>
  { iter := .ok [[3]]
    tls_trust_settings_for_certificate := fun _ => .ok (some .TrustRoot) }

/-- User yields `[1]` (denied) and `[2]` (trusted); the others are empty. -/
def envW6 : Domain → TrustSettings
  | .User =>
    { iter := .ok [[1], [2]]
      tls_trust_settings_for_certificate := fun der =>
        if der = [1] then .ok (some .Deny) else .ok (some .TrustRoot) }
  | _ => tsEmpty

/-- Every domain yields the identical certificate `[1]` with `TrustRoot`. -/
def envW8 : Domain → TrustSettings := fun _ =>
  { iter := .ok [[1]]
    tls_trust_settings_for_certificate := fun _ => .ok (some .TrustRoot) }

/-- System yields `[1]` but its verdict lookup fails; the others are empty. -/
def envW10 : Domain → TrustSettings
  | .System =>
    { iter := .ok [[1]]
      tls_trust_settings_for_certificate := fun _ => .error "lookup failed" }
  | _ => tsEmpty

/-- The digest function of the spec's concrete scenario: no certificate is
on the distrust list. -/
def hashC7 : List Nat → List Nat := fun _ => [0]

/-- The spec's concrete scenario: `certA = [1]`, `certB = [2]`; PerUser is
empty, LocallyAdministered yields certA with an explicit non-root verdict,
System yields certA as `TrustRoot` and certB with no explicit verdict. -/
def envC7 : Domain → TrustSettings
  | .User => tsEmpty
  | .Admin =>
    { iter := .ok [[1]]
      tls_trust_settings_for_certificate := fun der =>
        if der = [1] then .ok (some .Deny) else .ok none }
  | .System =>
    { iter := .ok [[1], [2]]
      tls_trust_settings_for_certificate := fun der =>
        if der = [1] then .ok (some .TrustRoot) else .ok none }

/-! ### Lemmas about the table operations -/

theorem lookup_append_single_self (m : Table) (k : List Nat)
    (v : TrustSettingsForCertificate) (h : lookup k m = none) :
    lookup k (m ++ [(k, v)]) = some v := by
  induction m with
  | nil => simp [lookup]
  | cons p rest ih =>
    rw [lookup] at h
    rw [List.cons_append, lookup]
    by_cases hk : p.1 = k
    · simp [hk] at h
    · simp only [hk, if_false] at h ⊢
      exact ih h

theorem lookup_append_single_ne (m : Table) (k k' : List Nat)
    (v : TrustSettingsForCertificate) (h : k ≠ k') :
    lookup k' (m ++ [(k, v)]) = lookup k' m := by
  induction m with
  | nil => simp [lookup, h]
  | cons p rest ih =>
    rw [List.cons_append, lookup, lookup]
    by_cases hk : p.1 = k'
    · simp [hk]
    · simp only [hk, if_false]
      exact ih

theorem lookup_entryOrInsert_self (m : Table) (k : List Nat)
    (v : TrustSettingsForCertificate) :
    lookup k (entryOrInsert m k v) = some ((lookup k m).getD v) := by
  rw [entryOrInsert]
  cases h : lookup k m with
  | some w => simp [h]
  | none => simp [lookup_append_single_self m k v h]

theorem lookup_entryOrInsert_ne (m : Table) (k k' : List Nat)
    (v : TrustSettingsForCertificate) (h : k ≠ k') :
    lookup k' (entryOrInsert m k v) = lookup k' m := by
  rw [entryOrInsert]
  cases hm : lookup k m with
  | some w => rfl
  | none => exact lookup_append_single_ne m k k' v h

theorem lookup_eq_none_iff (m : Table) (k : List Nat) :
    lookup k m = none ↔ k ∉ m.map Prod.fst := by
  induction m with
  | nil => simp [lookup]
  | cons p rest ih =>
    rw [lookup]
    by_cases hk : p.1 = k
    · simp [hk]
    · simp [hk, ih, Ne.symm hk]

theorem mem_of_lookup_some (m : Table) (k : List Nat)
    (v : TrustSettingsForCertificate) (h : lookup k m = some v) :
    (k, v) ∈ m := by
  induction m with
  | nil => simp [lookup] at h
  | cons p rest ih =>
    rw [lookup] at h
    by_cases hk : p.1 = k
    · simp only [hk, if_true, Option.some.injEq] at h
      have hp : p = (k, v) := Prod.ext hk h
      rw [← hp]
      exact List.mem_cons_self _ _
    · simp only [hk, if_false] at h
      exact List.mem_cons_of_mem _ (ih h)

theorem lookup_isSome_of_mem (m : Table) (k : List Nat)
    (v : TrustSettingsForCertificate) (h : (k, v) ∈ m) :
    ∃ w, lookup k m = some w := by
  induction m with
  | nil => simp at h
  | cons p rest ih =>
    rw [lookup]
    by_cases hk : p.1 = k
    · exact ⟨p.2, by simp [hk]⟩
    · rcases List.mem_cons.mp h with h1 | h2
      · exact absurd (congrArg Prod.fst h1.symm) hk
      · simpa [hk] using ih h2

theorem lookup_eq_of_mem_nodup (m : Table) (k : List Nat)
    (v : TrustSettingsForCertificate) (hnd : (m.map Prod.fst).Nodup)
    (h : (k, v) ∈ m) : lookup k m = some v := by
  induction m with
  | nil => simp at h
  | cons p rest ih =>
    rw [List.map_cons, List.nodup_cons] at hnd
    rw [lookup]
    rcases List.mem_cons.mp h with h1 | h2
    · simp [← h1]
    · by_cases hk : p.1 = k
      · exact absurd (hk ▸ List.mem_map_of_mem Prod.fst h2) hnd.1
      · simpa [hk] using ih hnd.2 h2

theorem nodupkeys_entryOrInsert (m : Table) (k : List Nat)
    (v : TrustSettingsForCertificate) (hnd : (m.map Prod.fst).Nodup) :
    ((entryOrInsert m k v).map Prod.fst).Nodup := by
  rw [entryOrInsert]
  cases h : lookup k m with
  | some w => exact hnd
  | none =>
    rw [List.map_append]
    simp only [List.map_cons, List.map_nil]
    rw [List.nodup_append]
    refine ⟨hnd, List.nodup_singleton k, ?_⟩
    intro a ha hb
    rw [List.mem_singleton] at hb
    exact (lookup_eq_none_iff m k).mp h (hb ▸ ha)

/-! ### Lemmas about the per-domain certificate loop -/

theorem processCerts_lookup_some (hash : List Nat → List Nat)
    (ts : TrustSettings) (l : List (List Nat)) (acc r : Table)
    (k : List Nat) (v : TrustSettingsForCertificate)
    (hacc : lookup k acc = some v)
    (hok : processCerts hash ts acc l = .ok r) : lookup k r = some v := by
  induction l generalizing acc with
  | nil =>
    rw [processCerts] at hok
    cases hok
    exact hacc
  | cons der rest ih =>
    rw [processCerts] at hok
    cases hv : ts.tls_trust_settings_for_certificate der with
    | error e => rw [hv] at hok; cases hok
    | ok o =>
      rw [hv] at hok
      simp only at hok
      by_cases hd : isDistrusted (hex (hash der)) = true
      · rw [if_pos hd] at hok
        exact ih acc hacc hok
      · rw [if_neg hd] at hok
        refine ih _ ?_ hok
        by_cases hk : der = k
        · rw [hk, lookup_entryOrInsert_self, hacc]
          rfl
        · rw [lookup_entryOrInsert_ne _ _ _ _ hk, hacc]

theorem processCerts_lookup_not_mem (hash : List Nat → List Nat)
    (ts : TrustSettings) (l : List (List Nat)) (acc r : Table)
    (k : List Nat) (hk : k ∉ l)
    (hok : processCerts hash ts acc l = .ok r) : lookup k r = lookup k acc := by
  induction l generalizing acc with
  | nil =>
    rw [processCerts] at hok
    cases hok
    rfl
  | cons der rest ih =>
    rw [List.mem_cons, not_or] at hk
    rw [processCerts] at hok
    cases hv : ts.tls_trust_settings_for_certificate der with
    | error e => rw [hv] at hok; cases hok
    | ok o =>
      rw [hv] at hok
      simp only at hok
      by_cases hd : isDistrusted (hex (hash der)) = true
      · rw [if_pos hd] at hok
        exact ih acc hk.2 hok
      · rw [if_neg hd] at hok
        rw [ih _ hk.2 hok,
          lookup_entryOrInsert_ne _ _ _ _ fun h => hk.1 h.symm]

theorem processCerts_lookup_distrusted (hash : List Nat → List Nat)
    (ts : TrustSettings) (l : List (List Nat)) (acc r : Table)
    (k : List Nat) (hd : isDistrusted (hex (hash k)) = true)
    (hok : processCerts hash ts acc l = .ok r) : lookup k r = lookup k acc := by
  induction l generalizing acc with
  | nil =>
    rw [processCerts] at hok
    cases hok
    rfl
  | cons der rest ih =>
    rw [processCerts] at hok
    cases hv : ts.tls_trust_settings_for_certificate der with
    | error e => rw [hv] at hok; cases hok
    | ok o =>
      rw [hv] at hok
      simp only at hok
      by_cases hder : isDistrusted (hex (hash der)) = true
      · rw [if_pos hder] at hok
        exact ih acc hok
      · rw [if_neg hder] at hok
        have hne : der ≠ k := fun h => hder (h ▸ hd)
        rw [ih _ hok, lookup_entryOrInsert_ne _ _ _ _ hne]

theorem processCerts_lookup_insert (hash : List Nat → List Nat)
    (ts : TrustSettings) (l : List (List Nat)) (acc r : Table)
    (k : List Nat) (hacc : lookup k acc = none) (hmem : k ∈ l)
    (hd : isDistrusted (hex (hash k)) = false)
    (hok : processCerts hash ts acc l = .ok r) :
    ∃ o, ts.tls_trust_settings_for_certificate k = .ok o ∧
      lookup k r = some (o.getD .TrustRoot) := by
  induction l generalizing acc with
  | nil => simp at hmem
  | cons der rest ih =>
    rw [processCerts] at hok
    cases hv : ts.tls_trust_settings_for_certificate der with
    | error e => rw [hv] at hok; cases hok
    | ok o =>
      rw [hv] at hok
      simp only at hok
      by_cases hk : der = k
      · subst hk
        rw [if_neg (by rw [hd]; exact Bool.false_ne_true)] at hok
        refine ⟨o, hv, ?_⟩
        refine processCerts_lookup_some hash ts rest _ r der _ ?_ hok
        rw [lookup_entryOrInsert_self, hacc]
        rfl
      · have hmem' : k ∈ rest := by
          rcases List.mem_cons.mp hmem with h | h
          · exact absurd h.symm hk
          · exact h
        by_cases hder : isDistrusted (hex (hash der)) = true
        · rw [if_pos hder] at hok
          exact ih acc hacc hmem' hok
        · rw [if_neg hder] at hok
          refine ih _ ?_ hmem' hok
          rw [lookup_entryOrInsert_ne _ _ _ _ hk, hacc]

theorem processCerts_ok_verdicts (hash : List Nat → List Nat)
    (ts : TrustSettings) (l : List (List Nat)) (acc r : Table)
    (hok : processCerts hash ts acc l = .ok r) :
    ∀ c ∈ l, ∃ o, ts.tls_trust_settings_for_certificate c = .ok o := by
  induction l generalizing acc with
  | nil => simp
  | cons der rest ih =>
    rw [processCerts] at hok
    cases hv : ts.tls_trust_settings_for_certificate der with
    | error e => rw [hv] at hok; cases hok
    | ok o =>
      rw [hv] at hok
      simp only at hok
      intro c hc
      rcases List.mem_cons.mp hc with h | h
      · exact ⟨o, h ▸ hv⟩
      · by_cases hder : isDistrusted (hex (hash der)) = true
        · rw [if_pos hder] at hok
          exact ih acc hok c h
        · rw [if_neg hder] at hok
          exact ih _ hok c h

theorem processCerts_nodupkeys (hash : List Nat → List Nat)
    (ts : TrustSettings) (l : List (List Nat)) (acc r : Table)
    (hnd : (acc.map Prod.fst).Nodup)
    (hok : processCerts hash ts acc l = .ok r) : (r.map Prod.fst).Nodup := by
  induction l generalizing acc with
  | nil =>
    rw [processCerts] at hok
    cases hok
    exact hnd
  | cons der rest ih =>
    rw [processCerts] at hok
    cases hv : ts.tls_trust_settings_for_certificate der with
    | error e => rw [hv] at hok; cases hok
    | ok o =>
      rw [hv] at hok
      simp only at hok
      by_cases hder : isDistrusted (hex (hash der)) = true
      · rw [if_pos hder] at hok
        exact ih acc hnd hok
      · rw [if_neg hder] at hok
        exact ih _ (nodupkeys_entryOrInsert _ _ _ hnd) hok

/-! ### Lemmas about the domain loop -/

theorem processDomains_cons_ok (hash : List Nat → List Nat)
    (env : Domain → TrustSettings) (acc tbl : Table) (d : Domain)
    (rest : List Domain)
    (hok : processDomains hash env acc (d :: rest) = .ok tbl) :
    ∃ l acc', (env d).iter = .ok l ∧
      processCerts hash (env d) acc l = .ok acc' ∧
      processDomains hash env acc' rest = .ok tbl := by
  rw [processDomains] at hok
  cases hi : (env d).iter with
  | error e => rw [hi] at hok; cases hok
  | ok l =>
    rw [hi] at hok
    simp only at hok
    cases hc : processCerts hash (env d) acc l with
    | error e => rw [hc] at hok; cases hok
    | ok acc' =>
      rw [hc] at hok
      exact ⟨l, acc', rfl, hc, hok⟩

theorem processDomains_lookup_some (hash : List Nat → List Nat)
    (env : Domain → TrustSettings) (ds : List Domain) (acc tbl : Table)
    (k : List Nat) (v : TrustSettingsForCertificate)
    (hacc : lookup k acc = some v)
    (hok : processDomains hash env acc ds = .ok tbl) : lookup k tbl = some v := by
  induction ds generalizing acc with
  | nil =>
    rw [processDomains] at hok
    cases hok
    exact hacc
  | cons d rest ih =>
    obtain ⟨l, acc', _, hc, hrest⟩ := processDomains_cons_ok hash env acc tbl d rest hok
    exact ih acc' (processCerts_lookup_some hash (env d) l acc acc' k v hacc hc) hrest

theorem processDomains_lookup_distrusted (hash : List Nat → List Nat)
    (env : Domain → TrustSettings) (ds : List Domain) (acc tbl : Table)
    (k : List Nat) (hd : isDistrusted (hex (hash k)) = true)
    (hok : processDomains hash env acc ds = .ok tbl) :
    lookup k tbl = lookup k acc := by
  induction ds generalizing acc with
  | nil =>
    rw [processDomains] at hok
    cases hok
    rfl
  | cons d rest ih =>
    obtain ⟨l, acc', _, hc, hrest⟩ := processDomains_cons_ok hash env acc tbl d rest hok
    rw [ih acc' hrest,
      processCerts_lookup_distrusted hash (env d) l acc acc' k hd hc]

theorem processDomains_ok_sources (hash : List Nat → List Nat)
    (env : Domain → TrustSettings) (ds : List Domain) (acc tbl : Table)
    (hok : processDomains hash env acc ds = .ok tbl) :
    ∀ d ∈ ds, ∃ l, (env d).iter = .ok l ∧
      ∀ c ∈ l, ∃ o, (env d).tls_trust_settings_for_certificate c = .ok o := by
  induction ds generalizing acc with
  | nil => simp
  | cons d rest ih =>
    obtain ⟨l, acc', hi, hc, hrest⟩ := processDomains_cons_ok hash env acc tbl d rest hok
    intro d' hd'
    rcases List.mem_cons.mp hd' with h | h
    · exact ⟨l, h ▸ hi, h ▸ processCerts_ok_verdicts hash (env d) l acc acc' hc⟩
    · exact ih acc' hrest d' h

theorem processDomains_nodupkeys (hash : List Nat → List Nat)
    (env : Domain → TrustSettings) (ds : List Domain) (acc tbl : Table)
    (hnd : (acc.map Prod.fst).Nodup)
    (hok : processDomains hash env acc ds = .ok tbl) :
    (tbl.map Prod.fst).Nodup := by
  induction ds generalizing acc with
  | nil =>
    rw [processDomains] at hok
    cases hok
    exact hnd
  | cons d rest ih =>
    obtain ⟨l, acc', _, hc, hrest⟩ := processDomains_cons_ok hash env acc tbl d rest hok
    exact ih acc' (processCerts_nodupkeys hash (env d) l acc acc' hnd hc) hrest

theorem mergedTable_nodupkeys (hash : List Nat → List Nat)
    (env : Domain → TrustSettings) (tbl : Table)
    (hok : mergedTable hash env = .ok tbl) : (tbl.map Prod.fst).Nodup :=
  processDomains_nodupkeys hash env _ [] tbl List.nodup_nil hok

/-! ### The output as a function of the merged table -/

theorem load_native_certs_eq (hash : List Nat → List Nat)
    (env : Domain → TrustSettings) (tbl : Table)
    (htbl : mergedTable hash env = .ok tbl) :
    load_native_certs hash env =
      .ok ((tbl.filter fun p => isRootVerdict p.2).map fun p =>
        Certificate.mk p.1) := by
  rw [load_native_certs, htbl]

theorem mem_output_iff (tbl : Table) (k : List Nat) :
    Certificate.mk k ∈
        ((tbl.filter fun p => isRootVerdict p.2).map fun p =>
          Certificate.mk p.1) ↔
      ∃ v, (k, v) ∈ tbl ∧ isRootVerdict v = true := by
  rw [List.mem_map]
  constructor
  · rintro ⟨p, hp, hpk⟩
    rw [List.mem_filter] at hp
    refine ⟨p.2, ?_, hp.2⟩
    have : p.1 = k := congrArg Certificate.der hpk
    rw [← this]
    exact hp.1
  · rintro ⟨v, hv, hroot⟩
    exact ⟨(k, v), List.mem_filter.mpr ⟨hv, hroot⟩, rfl⟩

theorem load_native_certs_ok_elim (hash : List Nat → List Nat)
    (env : Domain → TrustSettings) (certs : List Certificate)
    (hok : load_native_certs hash env = .ok certs) :
    ∃ tbl, mergedTable hash env = .ok tbl ∧
      certs = (tbl.filter fun p => isRootVerdict p.2).map fun p =>
        Certificate.mk p.1 := by
  rw [load_native_certs] at hok
  cases ht : mergedTable hash env with
  | error e => rw [ht] at hok; cases hok
  | ok tbl =>
    rw [ht] at hok
    simp only [Except.ok.injEq] at hok
    exact ⟨tbl, rfl, hok.symm⟩

theorem mem_output_iff_lookup (hash : List Nat → List Nat)
    (env : Domain → TrustSettings) (tbl : Table) (certs : List Certificate)
    (k : List Nat) (htbl : mergedTable hash env = .ok tbl)
    (hok : load_native_certs hash env = .ok certs) :
    Certificate.mk k ∈ certs ↔
      ∃ v, lookup k tbl = some v ∧ isRootVerdict v = true := by
  obtain ⟨tbl', htbl', hcerts⟩ := load_native_certs_ok_elim hash env certs hok
  rw [htbl] at htbl'
  cases htbl'
  rw [hcerts, mem_output_iff]
  constructor
  · rintro ⟨v, hv, hroot⟩
    exact ⟨v, lookup_eq_of_mem_nodup tbl k v (mergedTable_nodupkeys hash env tbl htbl) hv,
      hroot⟩
  · rintro ⟨v, hv, hroot⟩
    exact ⟨v, mem_of_lookup_some tbl k v hv, hroot⟩

/-! ### The claims -/

/-- C1: a certificate whose digest (of its raw DER bytes) is on the
distrust exclusion list is absent from the set returned by
`load_native_certs`, for every digest function and every scope environment
— hence regardless of the verdict any scope reports for it and regardless
of which scope yields it. -/
theorem excluded_digest_absent_from_output (hash : List Nat → List Nat)
    (env : Domain → TrustSettings) (der : List Nat) (certs : List Certificate)
    (hd : isDistrusted (hex (hash der)) = true)
    (hok : load_native_certs hash env = .ok certs) :
    Certificate.mk der ∉ certs := by
  obtain ⟨tbl, htbl, _⟩ := load_native_certs_ok_elim hash env certs hok
  intro hmem
  obtain ⟨v, hv, _⟩ := (mem_output_iff_lookup hash env tbl certs der htbl hok).mp hmem
  have hnone : lookup der tbl = none := by
    rw [mergedTable] at htbl
    rw [processDomains_lookup_distrusted hash env _ [] tbl der hd htbl]
    rfl
  rw [hnone] at hv
  cases hv

/-- C1 witness: with a digest function sending every certificate to the
first distrusted digest, a certificate reported `TrustRoot` by every scope
is absent from the (empty) output. -/
theorem excluded_digest_absent_witness :
    isDistrusted (hex (shaE3 [1])) = true ∧
      Certificate.mk [1] ∉ ([] : List Certificate) :=
  ⟨by decide, excluded_digest_absent_from_output shaE3 envW1 [1] [] (by decide) rfl⟩

/-- C3: the `match` on the digest hex string at `src/macos.rs:61-115`,
embedded arm-for-arm as `matchDigestArms`, has no arm for a digest that is
not on the distrust list: evaluated at the hex string of 32 zero bytes it
yields `none` (no arm matches), so the no-match case of the comparison is
not handled by the `match` as written and control cannot reach the
insertion at line 117 through any of its arms. -/
theorem distrust_match_has_no_arm_for_unlisted_digest :
    matchDigestArms (hex (List.replicate 32 0)) = none := by decide

/-- C4: if opening or iterating any scope fails, or the verdict lookup for
any certificate yielded by a scope fails, `load_native_certs` does not
return any certificate set at all. -/
theorem scope_or_verdict_failure_is_fatal (hash : List Nat → List Nat)
    (env : Domain → TrustSettings)
    (hfail : (∃ d e, (env d).iter = .error e) ∨
      ∃ d l der e, (env d).iter = .ok l ∧ der ∈ l ∧
        (env d).tls_trust_settings_for_certificate der = .error e) :
    ∀ certs, load_native_certs hash env ≠ .ok certs := by
  intro certs hok
  obtain ⟨tbl, htbl, _⟩ := load_native_certs_ok_elim hash env certs hok
  rw [mergedTable] at htbl
  have hsrc := processDomains_ok_sources hash env _ [] tbl htbl
  rcases hfail with ⟨d, e, hde⟩ | ⟨d, l, der, e, hl, hmem, hverd⟩
  · obtain ⟨l, hl, _⟩ := hsrc d (by cases d <;> simp)
    rw [hde] at hl
    cases hl
  · obtain ⟨l', hl', hall⟩ := hsrc d (by cases d <;> simp)
    rw [hl] at hl'
    cases hl'
    obtain ⟨o, ho⟩ := hall der hmem
    rw [hverd] at ho
    cases ho

/-- C4 witness: User and Admin open fine but System's `iter()` fails, and
the call returns no certificate set. -/
theorem scope_failure_fatal_witness :
    (envW4 Domain.System).iter = .error "unavailable" ∧
      load_native_certs sha0 envW4 ≠ .ok [] :=
  ⟨rfl, scope_or_verdict_failure_is_fatal sha0 envW4
    (Or.inl ⟨Domain.System, "unavailable", rfl⟩) []⟩

/-- C10: the verdict lookup happens before the digest-based exclusion
check: if the verdict lookup fails for a certificate yielded by some scope,
then even when that certificate's digest is on the exclusion list the whole
resolution returns no certificate set (the failure is not silently skipped). -/
theorem verdict_failure_beats_exclusion (hash : List Nat → List Nat)
    (env : Domain → TrustSettings) (d : Domain) (l : List (List Nat))
    (der : List Nat) (e : String)
    (hl : (env d).iter = .ok l) (hmem : der ∈ l)
    (_hexcl : isDistrusted (hex (hash der)) = true)
    (hverd : (env d).tls_trust_settings_for_certificate der = .error e) :
    ∀ certs, load_native_certs hash env ≠ .ok certs := by
  intro certs hok
  obtain ⟨tbl, htbl, _⟩ := load_native_certs_ok_elim hash env certs hok
  rw [mergedTable] at htbl
  obtain ⟨l', hl', hall⟩ :=
    processDomains_ok_sources hash env _ [] tbl htbl d (by cases d <;> simp)
  rw [hl] at hl'
  cases hl'
  obtain ⟨o, ho⟩ := hall der hmem
  rw [hverd] at ho
  cases ho

/-- C10 witness: System yields an excluded certificate whose verdict lookup
fails, and the call returns no certificate set. -/
theorem verdict_failure_beats_exclusion_witness :
    isDistrusted (hex (shaE3 [1])) = true ∧
      load_native_certs shaE3 envW10 ≠ .ok [] :=
  ⟨by decide, verdict_failure_beats_exclusion shaE3 envW10 Domain.System [[1]]
    [1] "lookup failed" rfl (by decide) (by decide) rfl []⟩

/-- C6: every certificate in the returned set owes its presence to a merged
verdict in {TrustRoot, TrustAsRoot}, and every merged-table entry whose
verdict is outside that set is absent from the output. -/
theorem output_is_root_filtered (hash : List Nat → List Nat)
    (env : Domain → TrustSettings) (tbl : Table) (certs : List Certificate)
    (htbl : mergedTable hash env = .ok tbl)
    (hok : load_native_certs hash env = .ok certs) :
    (∀ c ∈ certs, ∃ v, lookup c.der tbl = some v ∧ isRootVerdict v = true) ∧
    ∀ der v, lookup der tbl = some v → isRootVerdict v = false →
      Certificate.mk der ∉ certs := by
  constructor
  · intro c hc
    have he : Certificate.mk c.der = c := rfl
    rw [← he] at hc
    exact (mem_output_iff_lookup hash env tbl certs c.der htbl hok).mp hc
  · intro der v hv hnroot hmem
    obtain ⟨w, hw, hwroot⟩ :=
      (mem_output_iff_lookup hash env tbl certs der htbl hok).mp hmem
    rw [hv] at hw
    injection hw with h
    subst h
    rw [hnroot] at hwroot
    cases hwroot

/-- C6 witness: the denied certificate `[1]` stays out of the output while
the trusted certificate `[2]` appears, both read off the merged table. -/
theorem output_is_root_filtered_witness :
    (∀ c ∈ [Certificate.mk [2]], ∃ v,
        lookup c.der [([1], TrustSettingsForCertificate.Deny),
          ([2], TrustSettingsForCertificate.TrustRoot)] = some v ∧
        isRootVerdict v = true) ∧
    ∀ der v,
      lookup der [([1], TrustSettingsForCertificate.Deny),
        ([2], TrustSettingsForCertificate.TrustRoot)] = some v →
      isRootVerdict v = false → Certificate.mk der ∉ [Certificate.mk [2]] :=
  output_is_root_filtered sha0 envW6
    [([1], TrustSettingsForCertificate.Deny),
      ([2], TrustSettingsForCertificate.TrustRoot)]
    [Certificate.mk [2]] rfl rfl

/-- C8: the returned collection never contains two elements with equal DER
bytes, and any member occurs in it exactly once. -/
theorem output_has_no_duplicate_der (hash : List Nat → List Nat)
    (env : Domain → TrustSettings) (certs : List Certificate)
    (hok : load_native_certs hash env = .ok certs) :
    certs.Pairwise (fun a b => a.der ≠ b.der) ∧
    ∀ der, Certificate.mk der ∈ certs →
      certs.count (Certificate.mk der) = 1 := by
  obtain ⟨tbl, htbl, hcerts⟩ := load_native_certs_ok_elim hash env certs hok
  have hnd := mergedTable_nodupkeys hash env tbl htbl
  have hfnd : ((tbl.filter fun p => isRootVerdict p.2).map Prod.fst).Nodup :=
    List.Nodup.sublist (List.Sublist.map _ (List.filter_sublist _)) hnd
  have hfpw : ((tbl.filter fun p => isRootVerdict p.2).map Prod.fst).Pairwise
      (fun a b => a ≠ b) := hfnd
  rw [List.pairwise_map] at hfpw
  have hpw : certs.Pairwise (fun a b => a.der ≠ b.der) := by
    rw [hcerts, List.pairwise_map]
    exact hfpw.imp fun h => h
  refine ⟨hpw, fun der hmem => ?_⟩
  have hnodup : certs.Nodup :=
    hpw.imp fun h heq => h (congrArg Certificate.der heq)
  exact List.count_eq_one_of_mem hnodup hmem

/-- C8 witness: a certificate yielded identically by all three scopes
appears exactly once in the output. -/
theorem output_has_no_duplicate_der_witness :
    ([Certificate.mk [1]] : List Certificate).Pairwise
      (fun a b => a.der ≠ b.der) ∧
    ∀ der, Certificate.mk der ∈ [Certificate.mk [1]] →
      ([Certificate.mk [1]] : List Certificate).count (Certificate.mk der) = 1 :=
  output_has_no_duplicate_der sha0 envW8 [Certificate.mk [1]] rfl

/-- C9: the resolver is a pure function of the scope data: two runs over
the same environment return set-equal certificate lists (in this embedding,
statelessness is structural: there is no state a call could keep). -/
theorem resolver_deterministic (hash : List Nat → List Nat)
    (env : Domain → TrustSettings) (certs₁ certs₂ : List Certificate)
    (h1 : load_native_certs hash env = .ok certs₁)
    (h2 : load_native_certs hash env = .ok certs₂) :
    ∀ c, c ∈ certs₁ ↔ c ∈ certs₂ := by
  rw [h1] at h2
  injection h2 with h
  subst h
  exact fun c => Iff.rfl

/-- C9 witness: two runs over `envW8` agree on membership of the one
certificate it yields. -/
theorem resolver_deterministic_witness :
    Certificate.mk [1] ∈ [Certificate.mk [1]] ↔
      Certificate.mk [1] ∈ [Certificate.mk [1]] :=
  resolver_deterministic sha0 envW8 [Certificate.mk [1]] [Certificate.mk [1]]
    rfl rfl (Certificate.mk [1])

theorem processCerts_congr (hash : List Nat → List Nat)
    (ts ts' : TrustSettings) (l : List (List Nat)) (acc : Table)
    (h : ∀ der, ts'.tls_trust_settings_for_certificate der =
        ts.tls_trust_settings_for_certificate der ∨
      (ts.tls_trust_settings_for_certificate der = .ok none ∧
       ts'.tls_trust_settings_for_certificate der = .ok (some .TrustRoot))) :
    processCerts hash ts' acc l = processCerts hash ts acc l := by
  induction l generalizing acc with
  | nil => rfl
  | cons der rest ih =>
    rw [processCerts, processCerts]
    cases hv : ts.tls_trust_settings_for_certificate der with
    | error e =>
      rcases h der with heq | ⟨h1, _⟩
      · rw [heq, hv]
      · rw [h1] at hv
        cases hv
    | ok o =>
      rcases h der with heq | ⟨h1, h2⟩
      · rw [heq, hv]
        simp only
        by_cases hd : isDistrusted (hex (hash der)) = true
        · rw [if_pos hd, if_pos hd]
          exact ih acc
        · rw [if_neg hd, if_neg hd]
          exact ih _
      · rw [h1] at hv
        injection hv with hv'
        subst hv'
        rw [h2]
        simp only [Option.getD_some, Option.getD_none]
        by_cases hd : isDistrusted (hex (hash der)) = true
        · rw [if_pos hd, if_pos hd]
          exact ih acc
        · rw [if_neg hd, if_neg hd]
          exact ih _

theorem processDomains_congr (hash : List Nat → List Nat)
    (env env' : Domain → TrustSettings) (ds : List Domain) (acc : Table)
    (hiter : ∀ d, (env' d).iter = (env d).iter)
    (hverd : ∀ d der, (env' d).tls_trust_settings_for_certificate der =
        (env d).tls_trust_settings_for_certificate der ∨
      ((env d).tls_trust_settings_for_certificate der = .ok none ∧
       (env' d).tls_trust_settings_for_certificate der = .ok (some .TrustRoot))) :
    processDomains hash env' acc ds = processDomains hash env acc ds := by
  induction ds generalizing acc with
  | nil => rfl
  | cons d rest ih =>
    rw [processDomains, processDomains, hiter d]
    cases (env d).iter with
    | error e => rfl
    | ok l =>
      simp only
      rw [processCerts_congr hash (env d) (env' d) l acc (hverd d)]
      cases processCerts hash (env d) acc l with
      | error e => rfl
      | ok acc' => exact ih acc'

/-- C5: a scope that reports no explicit verdict for a certificate behaves
exactly as if it had reported `TrustRoot`: replacing any number of
`.ok none` verdict answers by `.ok (some TrustRoot)` (leaving everything
else unchanged) leaves the result of `load_native_certs` identical, and in
particular set-equal. -/
theorem default_verdict_law (hash : List Nat → List Nat)
    (env env' : Domain → TrustSettings)
    (hiter : ∀ d, (env' d).iter = (env d).iter)
    (hverd : ∀ d der, (env' d).tls_trust_settings_for_certificate der =
        (env d).tls_trust_settings_for_certificate der ∨
      ((env d).tls_trust_settings_for_certificate der = .ok none ∧
       (env' d).tls_trust_settings_for_certificate der = .ok (some .TrustRoot))) :
    load_native_certs hash env' = load_native_certs hash env := by
  rw [load_native_certs, load_native_certs, mergedTable, mergedTable,
    processDomains_congr hash env env' _ [] hiter hverd]

/-- C5 witness: an environment answering "no explicit settings" everywhere
resolves to the same output as one answering explicit `TrustRoot`. -/
theorem default_verdict_law_witness :
    load_native_certs sha0 envRootW = load_native_certs sha0 envNoneW :=
  default_verdict_law sha0 envNoneW envRootW (fun _ => rfl)
    (fun _ _ => Or.inr ⟨rfl, rfl⟩)

theorem mem_output_iff_isRoot (hash : List Nat → List Nat)
    (env : Domain → TrustSettings) (tbl : Table) (certs : List Certificate)
    (k : List Nat) (v : TrustSettingsForCertificate)
    (htbl : mergedTable hash env = .ok tbl)
    (hok : load_native_certs hash env = .ok certs)
    (hv : lookup k tbl = some v) :
    Certificate.mk k ∈ certs ↔ isRootVerdict v = true := by
  rw [mem_output_iff_lookup hash env tbl certs k htbl hok]
  constructor
  · rintro ⟨w, hw, hr⟩
    rw [hv] at hw
    injection hw with h
    subst h
    exact hr
  · intro hr
    exact ⟨v, hv, hr⟩

/-- C2: for a certificate that is not on the exclusion list, the verdict
recorded in the merged table is the effective verdict of the
highest-precedence scope that yields it (User over Admin over System): if
`der` is yielded by scope `d` and by no scope of smaller `domainIndex`,
then the table maps `der` to `d`'s effective verdict — no later scope
overwrites it — and membership in the output is decided by that verdict. -/
theorem precedence_first_scope_verdict (hash : List Nat → List Nat)
    (env : Domain → TrustSettings) (tbl : Table) (certs : List Certificate)
    (d : Domain) (l : List (List Nat)) (der : List Nat)
    (htbl : mergedTable hash env = .ok tbl)
    (hok : load_native_certs hash env = .ok certs)
    (hl : (env d).iter = .ok l) (hmem : der ∈ l)
    (hfirst : ∀ d' l', domainIndex d' < domainIndex d →
      (env d').iter = .ok l' → der ∉ l')
    (hexcl : isDistrusted (hex (hash der)) = false) :
    ∃ o, (env d).tls_trust_settings_for_certificate der = .ok o ∧
      lookup der tbl = some (o.getD .TrustRoot) ∧
      (Certificate.mk der ∈ certs ↔
        isRootVerdict (o.getD .TrustRoot) = true) := by
  have htbl0 := htbl
  rw [mergedTable] at htbl
  obtain ⟨l1, a1, hi1, hc1, h1⟩ := processDomains_cons_ok hash env [] tbl _ _ htbl
  cases d with
  | User =>
    rw [hl] at hi1
    injection hi1 with hi1'
    subst hi1'
    obtain ⟨o, ho, hlook⟩ :=
      processCerts_lookup_insert hash (env .User) l [] a1 der rfl hmem hexcl hc1
    have hfin := processDomains_lookup_some hash env _ a1 tbl der _ hlook h1
    exact ⟨o, ho, hfin,
      mem_output_iff_isRoot hash env tbl certs der _ htbl0 hok hfin⟩
  | Admin =>
    have hne1 : der ∉ l1 := hfirst Domain.User l1 (by decide) hi1
    have ha1 : lookup der a1 = none := by
      rw [processCerts_lookup_not_mem hash (env .User) l1 [] a1 der hne1 hc1]
      rfl
    obtain ⟨l2, a2, hi2, hc2, h2⟩ := processDomains_cons_ok hash env a1 tbl _ _ h1
    rw [hl] at hi2
    injection hi2 with hi2'
    subst hi2'
    obtain ⟨o, ho, hlook⟩ :=
      processCerts_lookup_insert hash (env .Admin) l a1 a2 der ha1 hmem hexcl hc2
    have hfin := processDomains_lookup_some hash env _ a2 tbl der _ hlook h2
    exact ⟨o, ho, hfin,
      mem_output_iff_isRoot hash env tbl certs der _ htbl0 hok hfin⟩
  | System =>
    have hne1 : der ∉ l1 := hfirst Domain.User l1 (by decide) hi1
    have ha1 : lookup der a1 = none := by
      rw [processCerts_lookup_not_mem hash (env .User) l1 [] a1 der hne1 hc1]
      rfl
    obtain ⟨l2, a2, hi2, hc2, h2⟩ := processDomains_cons_ok hash env a1 tbl _ _ h1
    have hne2 : der ∉ l2 := hfirst Domain.Admin l2 (by decide) hi2
    have ha2 : lookup der a2 = none := by
      rw [processCerts_lookup_not_mem hash (env .Admin) l2 a1 a2 der hne2 hc2, ha1]
    obtain ⟨l3, a3, hi3, hc3, h3⟩ := processDomains_cons_ok hash env a2 tbl _ _ h2
    rw [hl] at hi3
    injection hi3 with hi3'
    subst hi3'
    obtain ⟨o, ho, hlook⟩ :=
      processCerts_lookup_insert hash (env .System) l a2 a3 der ha2 hmem hexcl hc3
    rw [processDomains] at h3
    injection h3 with h3'
    subst h3'
    exact ⟨o, ho, hlook,
      mem_output_iff_isRoot hash env a3 certs der _ htbl0 hok hlook⟩

/-- C2 witness: certificate `[1]` first appears in the Admin scope as
`TrustAsRoot`; System's later `Deny` does not overwrite it, and `[1]` is in
the output because Admin's verdict is root-equivalent. -/
theorem precedence_first_scope_verdict_witness :
    ∃ o, (envW2 Domain.Admin).tls_trust_settings_for_certificate [1] = .ok o ∧
      lookup [1] [([1], TrustSettingsForCertificate.TrustAsRoot)] =
        some (o.getD .TrustRoot) ∧
      (Certificate.mk [1] ∈ [Certificate.mk [1]] ↔
        isRootVerdict (o.getD .TrustRoot) = true) :=
  precedence_first_scope_verdict sha0 envW2
    [([1], TrustSettingsForCertificate.TrustAsRoot)] [Certificate.mk [1]]
    Domain.Admin [[1]] [1] rfl rfl rfl (by decide)
    (fun d' l' hlt hil => by
      cases d' with
      | User =>
        injection hil with h
        subst h
        simp
      | Admin => exact absurd hlt (by decide)
      | System => exact absurd hlt (by decide))
    (by decide)

/-- C7: the spec's concrete scenario — PerUser empty, Admin yields certA
(`[1]`) with an explicit non-root verdict, System yields certA as
`TrustRoot` and certB (`[2]`) with no explicit verdict, nothing excluded —
resolves to exactly the one-element set containing certB. -/
theorem concrete_scenario_resolves_to_certB :
    load_native_certs hashC7 envC7 = .ok [Certificate.mk [2]] := rfl

end RustlsNativeCerts
